import Mathlib

/-!
Verification of the ay-events-generator delivery pipeline.

Shallow embedding of the repository's Go code:
  * `internal/dispatcher/dispatcher.go` — bounded exponential-backoff retry,
  * `internal/producer_batcher` — size/time batcher over message envelopes,
  * `internal/partitioner` — round-robin cursor and partition selection,
  * `internal/publisher` — bounded async queue with a one-shot close flag,
  * `internal/generator` — event generator defaults and close semantics,
  * `internal/event` — PageViewEvent JSON encoding,
  * `cmd/generator` — the flush closure wiring batches to the broker write.

Go machine integers are modelled as `Nat`/`Int` (no value in the modelled
paths overflows 64 bits), Go strings as byte lists (`List Nat`, each < 256),
channels as explicit closed-flags, and the scheduler's nondeterminism as
explicit oracles (`Nat → Bool`) indexed by loop iteration.
-/

namespace Dispatcher

/-- Result of `Dispatcher.Write`: success (`nil`), the parent context's
cancellation error (`ctx.Err()`), or `ErrBackoffTimeout`. -/
inductive WriteResult where
  | ok
  | ctxCancelled
  | backoffTimeout
deriving DecidableEq, Repr

/-- `backoffAttemptCount = 5` from `internal/dispatcher/writer.go`. -/
def backoffAttemptCount : Nat := 5

/-- `startBackoffTimeout = 1 * time.Second`, modelled in seconds. -/
def startBackoffTimeout : ℚ := 1

/-- `backoffMultiply = 1.2`. -/
def backoffMultiply : ℚ := 12 / 10

/-- The retry loop of `Dispatcher.writeWithBackoff`.  `cancelled i` tells
whether the parent context is observed as done at the `select` of loop
iteration `i`; `fails i` tells whether `singleWrite` (the wrapped closure)
returns an error on iteration `i`.  The function returns the overall result
together with the number of times the closure was invoked.  The growing
per-attempt timeout is carried along exactly as the source does, although it
does not influence control flow in this model (its effect is folded into the
`fails` oracle). -/
def writeLoop (cancelled fails : Nat → Bool) :
    Nat → Nat → Nat → ℚ → WriteResult × Nat
  | 0, _, calls, _ => (.backoffTimeout, calls)
  | n + 1, i, calls, timeout =>
    if cancelled i then
      (.ctxCancelled, calls)
    else if fails i then
      writeLoop cancelled fails n (i + 1) (calls + 1) (timeout * backoffMultiply)
    else
      (.ok, calls + 1)

/-- `Dispatcher.Write` / `writeWithBackoff`: run up to `backoffAttemptCount`
attempts starting from the initial timeout. -/
def writeWithBackoff (cancelled fails : Nat → Bool) : WriteResult × Nat :=
  writeLoop cancelled fails backoffAttemptCount 0 0 startBackoffTimeout

/-- The closure-invocation count of `writeLoop` never exceeds the remaining
attempt budget. -/
lemma writeLoop_calls_le (cancelled fails : Nat → Bool) :
    ∀ n i calls t, (writeLoop cancelled fails n i calls t).2 ≤ calls + n := by
  intro n
  induction n with
  | zero => intro i calls t; simp [writeLoop]
  | succ n ih =>
    intro i calls t
    cases hc : cancelled i with
    | true => simp [writeLoop, hc]
    | false =>
      cases hf : fails i with
      | true =>
        have h := ih (i + 1) (calls + 1) (t * backoffMultiply)
        simp only [writeLoop, hc, hf, Bool.false_eq_true, if_false, if_true]
        omega
      | false =>
        simp [writeLoop, hc, hf]

/-- If the first `f` attempts starting at index `i` fail, attempt `i + f`
succeeds and the budget suffices, `writeLoop` returns `ok` after exactly
`f + 1` further closure invocations. -/
lemma writeLoop_success (fails : Nat → Bool) :
    ∀ n f i calls t, f < n →
      (∀ k, k < f → fails (i + k) = true) → fails (i + f) = false →
      writeLoop (fun _ => false) fails n i calls t = (.ok, calls + f + 1) := by
  intro n
  induction n with
  | zero => intro f i calls t hf; omega
  | succ n ih =>
    intro f i calls t hf hall hsucc
    cases f with
    | zero =>
      have h0 : fails i = false := by simpa using hsucc
      simp [writeLoop, h0]
    | succ g =>
      have h0 : fails i = true := by simpa using hall 0 (Nat.succ_pos g)
      have harg : ∀ k, k < g → fails (i + 1 + k) = true := by
        intro k hk
        have h1 := hall (k + 1) (by omega)
        have h2 : i + 1 + k = i + (k + 1) := by omega
        rw [h2]; exact h1
      have hs : fails (i + 1 + g) = false := by
        have h2 : i + 1 + g = i + (g + 1) := by omega
        rw [h2]; exact hsucc
      have hrec := ih g (i + 1) (calls + 1) (t * backoffMultiply)
        (by omega) harg hs
      have hcount : calls + 1 + g + 1 = calls + (g + 1) + 1 := by omega
      rw [hcount] at hrec
      simp [writeLoop, h0, hrec]

/-- If every attempt in the budget fails (no cancellation), `writeLoop`
returns `backoffTimeout` after consuming the whole budget. -/
lemma writeLoop_allfail (fails : Nat → Bool) :
    ∀ n i calls t, (∀ k, k < n → fails (i + k) = true) →
      writeLoop (fun _ => false) fails n i calls t =
        (.backoffTimeout, calls + n) := by
  intro n
  induction n with
  | zero => intro i calls t _; simp [writeLoop]
  | succ n ih =>
    intro i calls t hall
    have h0 : fails i = true := by simpa using hall 0 (Nat.succ_pos n)
    have harg : ∀ k, k < n → fails (i + 1 + k) = true := by
      intro k hk
      have h1 := hall (k + 1) (by omega)
      have h2 : i + 1 + k = i + (k + 1) := by omega
      rw [h2]; exact h1
    have hrec := ih (i + 1) (calls + 1) (t * backoffMultiply) harg
    have hcount : calls + 1 + n = calls + (n + 1) := by omega
    rw [hcount] at hrec
    simp [writeLoop, h0, hrec]

/-- If the context is live at iteration `i` but becomes cancelled within the
remaining budget, and every executed attempt fails, `writeLoop` surfaces the
cancellation error after at least one further closure invocation. -/
lemma writeLoop_cancel (cancelled fails : Nat → Bool) :
    ∀ n i calls t, cancelled i = false →
      (∃ k, k < n ∧ cancelled (i + k) = true) →
      (∀ j, fails j = true) →
      (writeLoop cancelled fails n i calls t).1 = .ctxCancelled ∧
      calls + 1 ≤ (writeLoop cancelled fails n i calls t).2 := by
  intro n
  induction n with
  | zero =>
    intro i calls t _ hex _
    obtain ⟨k, hk, _⟩ := hex
    omega
  | succ n ih =>
    intro i calls t hlive hex hfail
    obtain ⟨k, hk, hkc⟩ := hex
    have hkpos : 0 < k := by
      rcases Nat.eq_zero_or_pos k with h | h
      · subst h; simp [hlive] at hkc
      · exact h
    cases hnext : cancelled (i + 1) with
    | true =>
      have hn : 0 < n := by omega
      obtain ⟨m, rfl⟩ := Nat.exists_eq_succ_of_ne_zero (Nat.pos_iff_ne_zero.mp hn)
      simp [writeLoop, hlive, hfail i, hnext]
    | false =>
      have hex2 : ∃ k, k < n ∧ cancelled (i + 1 + k) = true := by
        refine ⟨k - 1, by omega, ?_⟩
        have h2 : i + 1 + (k - 1) = i + k := by omega
        rw [h2]; exact hkc
      have hrec := ih (i + 1) (calls + 1) (t * backoffMultiply) hnext hex2 hfail
      have hgoal1 : (writeLoop cancelled fails (n + 1) i calls t) =
          writeLoop cancelled fails n (i + 1) (calls + 1)
            (t * backoffMultiply) := by
        simp [writeLoop, hlive, hfail i]
      rw [hgoal1]
      exact ⟨hrec.1, by omega⟩

/-- C3: with an uncancelled parent context, `Dispatcher.Write` invokes the
wrapped closure at most `K = 5` times; if the closure fails `f < 5` times and
then succeeds it is invoked exactly `f + 1` times and `Write` returns `nil`;
if all 5 attempts fail, `Write` returns `ErrBackoffTimeout` after exactly 5
invocations. -/
theorem dispatcher_attempt_contract (fails : Nat → Bool) :
    (writeWithBackoff (fun _ => false) fails).2 ≤ backoffAttemptCount ∧
    (∀ f, f < backoffAttemptCount → (∀ k, k < f → fails k = true) →
      fails f = false →
      writeWithBackoff (fun _ => false) fails = (.ok, f + 1)) ∧
    ((∀ k, k < backoffAttemptCount → fails k = true) →
      writeWithBackoff (fun _ => false) fails =
        (.backoffTimeout, backoffAttemptCount)) := by
  refine ⟨?_, ?_, ?_⟩
  · have := writeLoop_calls_le (fun _ => false) fails backoffAttemptCount 0 0
      startBackoffTimeout
    simpa [writeWithBackoff] using this
  · intro f hf hall hsucc
    have := writeLoop_success fails backoffAttemptCount f 0 0
      startBackoffTimeout hf (by simpa using hall) (by simpa using hsucc)
    simpa [writeWithBackoff] using this
  · intro hall
    have := writeLoop_allfail fails backoffAttemptCount 0 0
      startBackoffTimeout (by simpa using hall)
    simpa [writeWithBackoff] using this

/-- Witness for `dispatcher_attempt_contract`: a closure failing exactly twice
is invoked three times and `Write` returns `nil` (spec scenario 6), within the
five-attempt bound. -/
theorem dispatcher_attempt_contract_witness :
    writeWithBackoff (fun _ => false) (fun i => decide (i < 2)) = (.ok, 3) ∧
    (writeWithBackoff (fun _ => false) (fun i => decide (i < 2))).2 ≤
      backoffAttemptCount :=
  ⟨(dispatcher_attempt_contract (fun i => decide (i < 2))).2.1 2 (by decide)
      (fun k hk => decide_eq_true hk) (by decide),
   (dispatcher_attempt_contract (fun i => decide (i < 2))).1⟩

/-- C2: if the parent context is live at the first iteration, becomes
cancelled before the attempt budget is exhausted, and the wrapped closure
always fails, then `Dispatcher.Write` returns the parent context's
cancellation error (not `ErrBackoffTimeout`) and the closure was invoked at
least once. -/
theorem dispatcher_parent_cancel (cancelled fails : Nat → Bool)
    (hlive : cancelled 0 = false)
    (hcancel : ∃ j, j < backoffAttemptCount ∧ cancelled j = true)
    (hfail : ∀ j, fails j = true) :
    (writeWithBackoff cancelled fails).1 = .ctxCancelled ∧
    1 ≤ (writeWithBackoff cancelled fails).2 := by
  have := writeLoop_cancel cancelled fails backoffAttemptCount 0 0
    startBackoffTimeout hlive (by simpa using hcancel) hfail
  exact ⟨by simpa [writeWithBackoff] using this.1,
    by simpa [writeWithBackoff] using this.2⟩

/-- Witness for `dispatcher_parent_cancel`: a 20 ms parent timeout observed
from the second iteration on, with an always-failing closure (spec scenario
7): the result is the cancellation error and the closure ran once. -/
theorem dispatcher_parent_cancel_witness :
    (writeWithBackoff (fun i => decide (0 < i)) (fun _ => true)).1 =
      .ctxCancelled ∧
    1 ≤ (writeWithBackoff (fun i => decide (0 < i)) (fun _ => true)).2 :=
  dispatcher_parent_cancel (fun i => decide (0 < i)) (fun _ => true)
    (by decide) ⟨1, by decide, by decide⟩ (fun _ => rfl)

end Dispatcher

namespace ProducerBatcher

/-- `BatchMode` of `internal/producer_batcher`: `SizeMode` or `TimeMode`. -/
inductive BatchMode where
  | sizeMode
  | timeMode
deriving DecidableEq, Repr

/-- A buffered envelope: `Message[T]{Ctx, Data}`.  The submission context is
modelled by an opaque numeric identity. -/
structure Message (T : Type) where
  ctxId : Nat
  data : T
deriving DecidableEq, Repr

/-- The mutable state of `Batcher[T]` (mode, flush size, buffer, stopped
flag); the mutex, channels and wait-group serialize access and are implicit
in this sequential model. -/
structure Batcher (T : Type) where
  mode : BatchMode
  flushSize : Nat
  buffer : List (Message T)
  stopped : Bool
deriving Repr

/-- `NewBatcher` followed by `SetFlushSize n` (and the default
`SetMode SizeMode`): an empty size-mode batcher. -/
def mkSizeBatcher (T : Type) (n : Nat) : Batcher T :=
  { mode := .sizeMode, flushSize := n, buffer := [], stopped := false }

/-- `flushBuffer`: clone the buffer and reset its length to zero. -/
def flushBuffer {T : Type} (b : Batcher T) : List (Message T) × Batcher T :=
  (b.buffer, { b with buffer := [] })

/-- `Batcher.Push`: reject when stopped (`ErrBatchStopped`); otherwise append
under the lock, and in size mode flush once the buffer length has reached
`flushSize`.  Returns the new state, the batch handed to `flushFn` (if any),
and whether the push returned the stopped error. -/
def push {T : Type} (b : Batcher T) (ctx : Nat) (message : T) :
    Batcher T × Option (List (Message T)) × Bool :=
  if b.stopped then
    (b, none, true)
  else
    let b1 : Batcher T := { b with buffer := b.buffer ++ [⟨ctx, message⟩] }
    if b1.mode = .sizeMode ∧ b1.flushSize ≤ b1.buffer.length then
      let (messages, b2) := flushBuffer b1
      (b2, some messages, false)
    else
      (b1, none, false)

/-- `Batcher.Close` for a size-mode batcher: flip `stopped` (idempotent via
compare-and-swap) and flush the remaining buffer when it is non-empty. -/
def close {T : Type} (b : Batcher T) : Batcher T × Option (List (Message T)) :=
  if b.stopped then
    (b, none)
  else
    let b1 : Batcher T := { b with stopped := true }
    match b1.mode with
    | .timeMode => (b1, if b1.buffer.length > 0 then some b1.buffer else none)
    | .sizeMode =>
      let (messages, b2) := flushBuffer b1
      (b2, if messages.length > 0 then some messages else none)

/-- Run a sequence of `Push` calls, collecting every batch handed to the
flush function, in program order. -/
def pushAll {T : Type} (b : Batcher T) :
    List (Nat × T) → Batcher T × List (List (Message T))
  | [] => (b, [])
  | m :: rest =>
    let step := push b m.1 m.2
    let tail := pushAll step.1 rest
    (tail.1, step.2.1.toList ++ tail.2)

/-- A fresh size-mode batcher with `flushSize = n`, fed `msgs` and then
closed: the push-triggered batches together with the final close batch. -/
def runSizeMode (T : Type) (n : Nat) (msgs : List (Nat × T)) :
    List (List (Message T)) × Option (List (Message T)) :=
  let r := pushAll (mkSizeBatcher T n) msgs
  (r.2, (close r.1).2)

/-- Invariant of the size-mode push loop: the buffer stays strictly below the
flush size, every emitted batch has exactly `flushSize` envelopes, and the
emitted batches followed by the residual buffer are exactly the prior buffer
followed by the pushed envelopes (in order, no duplication, no loss). -/
lemma pushAll_size_invariant {T : Type} (n : Nat) (hn : 1 ≤ n) :
    ∀ (msgs : List (Nat × T)) (b : Batcher T), b.mode = .sizeMode →
      b.flushSize = n → b.stopped = false → b.buffer.length < n →
      (pushAll b msgs).1.mode = .sizeMode ∧
      (pushAll b msgs).1.flushSize = n ∧
      (pushAll b msgs).1.stopped = false ∧
      (pushAll b msgs).1.buffer.length < n ∧
      (∀ batch ∈ (pushAll b msgs).2, batch.length = n) ∧
      (pushAll b msgs).2.flatten ++ (pushAll b msgs).1.buffer =
        b.buffer ++ msgs.map (fun m => Message.mk m.1 m.2) := by
  intro msgs
  induction msgs with
  | nil =>
    intro b h1 h2 h3 h4
    simp [pushAll, h1, h2, h3, h4]
  | cons m rest ih =>
    intro b h1 h2 h3 h4
    by_cases hfull : n ≤ b.buffer.length + 1
    · -- the appended envelope fills the buffer: flush now
      have hpush : push b m.1 m.2 =
          ({ b with buffer := [] }, some (b.buffer ++ [⟨m.1, m.2⟩]), false) := by
        simp [push, h3, h1, h2, flushBuffer, hfull]
      have hlen : (b.buffer ++ [Message.mk m.1 m.2]).length = n := by
        simp; omega
      have hrec := ih { b with buffer := [] } h1 h2 h3 (by simp; omega)
      refine ⟨?_, ?_, ?_, ?_, ?_, ?_⟩
      · simpa [pushAll, hpush] using hrec.1
      · simpa [pushAll, hpush] using hrec.2.1
      · simpa [pushAll, hpush] using hrec.2.2.1
      · simpa [pushAll, hpush] using hrec.2.2.2.1
      · intro batch hb
        simp only [pushAll, hpush, Option.toList_some, List.mem_append,
          List.mem_singleton] at hb
        rcases hb with hb | hb
        · rcases hb with hb
          · exact hb ▸ hlen
        · exact hrec.2.2.2.2.1 batch hb
      · have hjoin := hrec.2.2.2.2.2
        simp only [pushAll, hpush]
        simp only [Option.toList_some, List.flatten, List.cons_append,
          List.nil_append] at *
        simp [List.flatten_append, hjoin]
    · -- buffer still below the threshold: just append
      have hpush : push b m.1 m.2 =
          ({ b with buffer := b.buffer ++ [⟨m.1, m.2⟩] }, none, false) := by
        simp [push, h3, h1, h2, flushBuffer]
        omega
      have hrec := ih { b with buffer := b.buffer ++ [⟨m.1, m.2⟩] } h1 h2 h3
        (by simp; omega)
      refine ⟨?_, ?_, ?_, ?_, ?_, ?_⟩
      · simpa [pushAll, hpush] using hrec.1
      · simpa [pushAll, hpush] using hrec.2.1
      · simpa [pushAll, hpush] using hrec.2.2.1
      · simpa [pushAll, hpush] using hrec.2.2.2.1
      · intro batch hb
        simp only [pushAll, hpush, Option.toList_none, List.nil_append] at hb
        exact hrec.2.2.2.2.1 batch hb
      · have hjoin := hrec.2.2.2.2.2
        simp only [pushAll, hpush, Option.toList_none, List.nil_append]
        simp [hjoin]

/-- C4: for a size-mode batcher with `flush_size = N ≥ 1`, over any sequence
of successful pushes followed by `Close`: every push-triggered batch has
length exactly `N`; the close-time batch, when present, is shorter than `N`
(and non-empty); and the concatenation of all flushed batches is exactly the
pushed sequence (no envelope lost, duplicated, or flushed early). -/
theorem batcher_size_mode_batches (T : Type) (n : Nat) (hn : 1 ≤ n)
    (msgs : List (Nat × T)) :
    (∀ batch ∈ (runSizeMode T n msgs).1, batch.length = n) ∧
    (∀ fin, (runSizeMode T n msgs).2 = some fin →
      1 ≤ fin.length ∧ fin.length < n) ∧
    ((runSizeMode T n msgs).1.flatten ++ ((runSizeMode T n msgs).2.getD []) =
      msgs.map (fun m => Message.mk m.1 m.2)) := by
  have hinv := pushAll_size_invariant n hn msgs (mkSizeBatcher T n)
    rfl rfl rfl (by simpa [mkSizeBatcher] using hn)
  obtain ⟨hmode, hfs, hstop, hbuf, hbatches, hjoin⟩ := hinv
  set b1 := (pushAll (mkSizeBatcher T n) msgs).1 with hb1
  have hclose : close b1 =
      ({ b1 with stopped := true, buffer := [] },
        if b1.buffer.length > 0 then some b1.buffer else none) := by
    rw [close, if_neg (by simp [hstop]), hmode]
    simp [flushBuffer]
  refine ⟨?_, ?_, ?_⟩
  · intro batch hb
    exact hbatches batch hb
  · intro fin hfin
    rw [runSizeMode] at hfin
    simp only [← hb1, hclose] at hfin
    by_cases hpos : b1.buffer.length > 0
    · rw [if_pos hpos] at hfin
      cases hfin
      exact ⟨by omega, hbuf⟩
    · rw [if_neg hpos] at hfin
      cases hfin
  · rw [runSizeMode]
    simp only [← hb1, hclose]
    by_cases hpos : b1.buffer.length > 0
    · rw [if_pos hpos]
      simpa [mkSizeBatcher] using hjoin
    · rw [if_neg hpos]
      have hempty : b1.buffer = [] := by
        cases hbe : b1.buffer with
        | nil => rfl
        | cons x xs => rw [hbe] at hpos; simp at hpos
      simp only [Option.getD_none, List.append_nil]
      have := hjoin
      rw [hempty] at this
      simpa [mkSizeBatcher] using this

/-- Witness for `batcher_size_mode_batches`: pushing five envelopes through a
size-2 batcher yields two full batches and a one-element close batch. -/
theorem batcher_size_mode_batches_witness :
    (∀ batch ∈ (runSizeMode Nat 2 [(0, 10), (1, 11), (2, 12), (3, 13),
      (4, 14)]).1, batch.length = 2) ∧
    (∀ fin, (runSizeMode Nat 2 [(0, 10), (1, 11), (2, 12), (3, 13),
      (4, 14)]).2 = some fin → 1 ≤ fin.length ∧ fin.length < 2) ∧
    ((runSizeMode Nat 2 [(0, 10), (1, 11), (2, 12), (3, 13),
      (4, 14)]).1.flatten ++
      ((runSizeMode Nat 2 [(0, 10), (1, 11), (2, 12), (3, 13),
        (4, 14)]).2.getD []) =
      [(0, 10), (1, 11), (2, 12), (3, 13), (4, 14)].map
        (fun m => Message.mk m.1 m.2)) :=
  batcher_size_mode_batches Nat 2 (by decide)
    [(0, 10), (1, 11), (2, 12), (3, 13), (4, 14)]

end ProducerBatcher


namespace Partitioner

/-- Partitioner `Mode` (`round_robin_circle.go` / `mode.go`). -/
inductive Mode where
  | roundRobin
  | key
  | random
deriving DecidableEq, Repr

/-- `RRCircle`: a cursor `v` advanced modulo `count` under a mutex.  The
sequential model owns the mutex implicitly. -/
structure RRCircle where
  v : Nat
  count : Nat
deriving DecidableEq, Repr

/-- `NewRRCircle(count)`: cursor starts at zero. -/
def NewRRCircle (count : Nat) : RRCircle := { v := 0, count := count }

/-- `RRCircle.Load`: return the current cursor, then advance it (wrap to 0
from `count - 1`, otherwise increment). -/
def RRCircle.load (c : RRCircle) : Nat × RRCircle :=
  (c.v, if c.v = c.count - 1 then { c with v := 0 } else { c with v := c.v + 1 })

/-- The atomically-swapped `Config[T]` record, restricted to the fields the
round-robin path reads (the key extractor and random source are oracles of
the other modes). -/
structure Config where
  mode : Mode
  count : Nat
  rr : RRCircle
deriving DecidableEq, Repr

/-- `SetRoundRobinMode(count)`: reject a non-positive count
(`ErrInvalidCount`), otherwise publish a fresh round-robin configuration with
a fresh cursor. -/
def setRoundRobinMode (count : Nat) : Option Config :=
  if count = 0 then none
  else some { mode := .roundRobin, count := count, rr := NewRRCircle count }

/-- The round-robin arm of `Partitioner.WriteFn`: load the cursor, hand the
loaded index to `writePartitionFn`, and keep the advanced cursor.  Returns
the index passed to the per-partition write and the successor state. -/
def writeFnRR (cfg : Config) : Nat × Config :=
  let r := cfg.rr.load
  (r.1, { cfg with rr := r.2 })

/-- The index sequence produced by `m` successive `WriteFn` calls in
round-robin mode. -/
def writeFnSeq (cfg : Config) : Nat → List Nat
  | 0 => []
  | m + 1 =>
    let r := writeFnRR cfg
    r.1 :: writeFnSeq r.2 m

/-- One `load` from cursor value `k % C` returns `k % C` and advances to
`(k + 1) % C`. -/
lemma load_mod (C k : Nat) (hC : 1 ≤ C) :
    (RRCircle.mk (k % C) C).load = (k % C, ⟨(k + 1) % C, C⟩) := by
  have hstep : (k + 1) % C = (k % C + 1) % C := by
    conv_lhs => rw [← Nat.div_add_mod k C]
    rw [Nat.add_assoc, Nat.mul_add_mod]
  rw [RRCircle.load]
  by_cases h : k % C = C - 1
  · have hm : (k + 1) % C = 0 := by
      rw [hstep, h]
      have h2 : C - 1 + 1 = C := by omega
      rw [h2, Nat.mod_self]
    simp only [h, if_pos rfl, hm]
    simp
  · rw [if_neg (by simpa using h)]
    have hlt : k % C < C := Nat.mod_lt _ (by omega)
    have hm : (k + 1) % C = k % C + 1 := by
      rw [hstep, Nat.mod_eq_of_lt (by omega)]
    rw [hm]

/-- After `k` calls the cursor sits at `k % C`, and the next `m` calls return
`k % C, (k+1) % C, …`. -/
lemma writeFnSeq_mod (C : Nat) (hC : 1 ≤ C) :
    ∀ m k, writeFnSeq ⟨.roundRobin, C, ⟨k % C, C⟩⟩ m =
      (List.range' k m).map (· % C) := by
  intro m
  induction m with
  | zero => intro k; simp [writeFnSeq]
  | succ m ih =>
    intro k
    rw [writeFnSeq]
    simp only [writeFnRR, load_mod C k hC]
    rw [List.range'_succ]
    simp [ih (k + 1)]

/-- Residues below `C` are fixed by `· % C`. -/
lemma map_mod_range_lt (C n : Nat) (hn : n ≤ C) :
    (List.range n).map (· % C) = List.range n := by
  have h : ∀ a ∈ List.range n, a % C = a := fun a ha =>
    Nat.mod_eq_of_lt (lt_of_lt_of_le (List.mem_range.mp ha) hn)
  calc (List.range n).map (· % C) = (List.range n).map id :=
        List.map_congr_left h
    _ = List.range n := List.map_id _

/-- Splitting one full block of residues off the front. -/
lemma map_mod_range_block (C n : Nat) :
    (List.range (C + n)).map (· % C) =
      (List.range C).map (· % C) ++ (List.range n).map (· % C) := by
  rw [List.range_add, List.map_append, List.map_map]
  congr 1
  apply List.map_congr_left
  intro a _
  simp [Nat.add_mod_left]

/-- Counting a residue `j < C` among the residues of `0, …, q·C + r - 1`
(with `r ≤ C`): `q` full blocks plus one more when `j < r`. -/
lemma count_mod_block (C j : Nat) (hC : 1 ≤ C) (hj : j < C) :
    ∀ q r, r ≤ C → ((List.range (q * C + r)).map (· % C)).count j
      = q + (if j < r then 1 else 0) := by
  intro q
  induction q with
  | zero =>
    intro r hr
    simp only [Nat.zero_mul, Nat.zero_add]
    rw [map_mod_range_lt C r hr]
    by_cases h : j < r
    · rw [if_pos h,
        List.count_eq_one_of_mem (List.nodup_range r) (List.mem_range.mpr h)]
    · rw [if_neg h, List.count_eq_zero_of_not_mem]
      intro hmem
      exact h (List.mem_range.mp hmem)
  | succ q ih =>
    intro r hr
    have hrw : (q + 1) * C + r = C + (q * C + r) := by ring
    rw [hrw, map_mod_range_block C _, List.count_append, ih r hr]
    rw [map_mod_range_lt C C le_rfl,
      List.count_eq_one_of_mem (List.nodup_range C) (List.mem_range.mpr hj)]
    omega

/-- Closed form for the residue count over `0, …, M - 1`. -/
lemma count_mod_range (C j : Nat) (hC : 1 ≤ C) (hj : j < C) (M : Nat) :
    ((List.range M).map (· % C)).count j =
      M / C + (if j < M % C then 1 else 0) := by
  have hdm : M / C * C + M % C = M := Nat.div_add_mod' M C
  have hrle : M % C ≤ C := le_of_lt (Nat.mod_lt _ (by omega))
  have h := count_mod_block C j hC hj (M / C) (M % C) hrle
  rw [hdm] at h
  exact h

/-- `⌈M / C⌉` expressed as `(M + C - 1) / C`, one more than `⌊M / C⌋` when
`C` does not divide `M`. -/
lemma ceil_div_eq (C M : Nat) (hC : 1 ≤ C) (hr : M % C ≠ 0) :
    (M + C - 1) / C = M / C + 1 := by
  have hdm : M / C * C + M % C = M := Nat.div_add_mod' M C
  have hrlt : M % C < C := Nat.mod_lt _ (by omega)
  have hmul : (M / C + 1) * C = M / C * C + C := by ring
  have h1 : M + C - 1 = (M % C - 1) + (M / C + 1) * C := by omega
  rw [h1, Nat.add_mul_div_right _ _ (by omega : 0 < C),
    Nat.div_eq_of_lt (by omega)]
  omega

/-- C5: in round-robin mode with count `C ≥ 1`, (a) a single `WriteFn` call
passes the current cursor to the per-partition write and advances the cursor
by one modulo `C`; (b) `M` sequential calls from a fresh
`SetRoundRobinMode(C)` configuration produce the indices
`0, 1, …, C-1, 0, 1, …`; (c) each index `j < C` occurs `⌊M/C⌋` or `⌈M/C⌉`
times. -/
theorem partitioner_round_robin (C : Nat) (hC : 1 ≤ C) :
    (∀ cfg : Config, cfg.rr.count = C → cfg.rr.v < C →
      (writeFnRR cfg).1 = cfg.rr.v ∧
      (writeFnRR cfg).2.rr.v = (cfg.rr.v + 1) % C) ∧
    (∀ cfg, setRoundRobinMode C = some cfg →
      ∀ M, writeFnSeq cfg M = (List.range M).map (· % C)) ∧
    (∀ cfg, setRoundRobinMode C = some cfg →
      ∀ M j, j < C → (writeFnSeq cfg M).count j = M / C ∨
        (writeFnSeq cfg M).count j = (M + C - 1) / C) := by
  have hset : setRoundRobinMode C =
      some { mode := .roundRobin, count := C, rr := NewRRCircle C } := by
    rw [setRoundRobinMode, if_neg (by omega)]
  have hseq0 : ∀ M, writeFnSeq ⟨.roundRobin, C, NewRRCircle C⟩ M =
      (List.range M).map (· % C) := by
    intro M
    have h := writeFnSeq_mod C hC M 0
    rw [Nat.zero_mod] at h
    rw [NewRRCircle, h, List.range_eq_range']
  refine ⟨?_, ?_, ?_⟩
  · intro cfg hcount hv
    refine ⟨rfl, ?_⟩
    show (cfg.rr.load.2).v = (cfg.rr.v + 1) % C
    rw [RRCircle.load]
    by_cases h : cfg.rr.v = cfg.rr.count - 1
    · rw [if_pos h]
      have hv1 : cfg.rr.v + 1 = C := by rw [hcount] at h; omega
      have hm : (cfg.rr.v + 1) % C = 0 := by rw [hv1, Nat.mod_self]
      simp [hm]
    · rw [if_neg h]
      have hlt : cfg.rr.v + 1 < C := by rw [hcount] at h; omega
      have hm : (cfg.rr.v + 1) % C = cfg.rr.v + 1 := Nat.mod_eq_of_lt hlt
      simp [hm]
  · intro cfg hcfg M
    rw [hset] at hcfg
    cases hcfg
    exact hseq0 M
  · intro cfg hcfg M j hj
    rw [hset] at hcfg
    cases hcfg
    rw [hseq0 M, count_mod_range C j hC hj M]
    by_cases hlt : j < M % C
    · right
      rw [ceil_div_eq C M hC (by omega)]
      rw [if_pos hlt]
    · left
      rw [if_neg hlt, Nat.add_zero]

/-- Witness for `partitioner_round_robin`: count 3 over 6 writes yields
`[0, 1, 2, 0, 1, 2]` (spec scenario 8) and index 1 occurs `6 / 3 = 2` or
`⌈6 / 3⌉` times. -/
theorem partitioner_round_robin_witness :
    writeFnSeq ⟨.roundRobin, 3, NewRRCircle 3⟩ 6 =
      (List.range 6).map (· % 3) ∧
    (List.range 6).map (· % 3) = [0, 1, 2, 0, 1, 2] ∧
    ((writeFnSeq ⟨.roundRobin, 3, NewRRCircle 3⟩ 6).count 1 = 6 / 3 ∨
      (writeFnSeq ⟨.roundRobin, 3, NewRRCircle 3⟩ 6).count 1 = (6 + 3 - 1) / 3) :=
  ⟨(partitioner_round_robin 3 (by decide)).2.1 ⟨.roundRobin, 3, NewRRCircle 3⟩
      (by decide) 6,
   by decide,
   (partitioner_round_robin 3 (by decide)).2.2 ⟨.roundRobin, 3, NewRRCircle 3⟩
     (by decide) 6 1 (by decide)⟩

end Partitioner

namespace Pub

/-- Errors and write outcomes visible to publisher callers: `ErrClosed`, the
inline write's own error, or success. -/
inductive SendResult where
  | closedErr
  | writeFailed
  | ok
deriving DecidableEq, Repr

/-- The queued `AsyncMessage[T]`: submission context (opaque id), payload,
and whether a callback was supplied. -/
structure AsyncMessage (T : Type) where
  ctxId : Nat
  message : T
  hasCallback : Bool
deriving DecidableEq, Repr

/-- `Publisher[T]` state: the one-shot `closed` atomic flag, whether
`closeCh` has been closed, and the contents of the buffered
`asyncMessagesCh`. -/
structure Publisher (T : Type) where
  closed : Bool
  closeChClosed : Bool
  queue : List (AsyncMessage T)
deriving DecidableEq, Repr

/-- `NewPublisher`: open flags, empty buffer. -/
def NewPublisher (T : Type) : Publisher T :=
  { closed := false, closeChClosed := false, queue := [] }

/-- `Publisher.SendAsync`: fail with `ErrClosed` when the closed flag is set
(the message is not enqueued); otherwise append the message to the buffered
channel. -/
def sendAsync {T : Type} (p : Publisher T) (m : AsyncMessage T) :
    SendResult × Publisher T :=
  if p.closed then
    (.closedErr, p)
  else
    (.ok, { p with queue := p.queue ++ [m] })

/-- `Publisher.SendSync`: fail with `ErrClosed` when closed, without invoking
the write function; otherwise invoke it inline and surface its error.  The
write's outcome is an oracle; the Bool reports whether the write ran. -/
def sendSync {T : Type} (p : Publisher T) (writeFails : Bool) :
    SendResult × Bool :=
  if p.closed then
    (.closedErr, false)
  else if writeFails then
    (.writeFailed, true)
  else
    (.ok, true)

/-- `Publisher.Close`: `closed.Swap(true)` — a second call observes `true`
and returns `ErrClosed` immediately (no channel close, no waiting); the
first call closes `closeCh` and waits for the workers. -/
def closePub {T : Type} (p : Publisher T) : SendResult × Publisher T :=
  if p.closed then
    (.closedErr, p)
  else
    (.ok, { p with closed := true, closeChClosed := true })

/-- C6: once `Close()` has returned successfully, every later `SendAsync`
returns `ErrClosed` without enqueueing, every later `SendSync` returns
`ErrClosed` without invoking the write function, and every later `Close`
returns `ErrClosed` immediately with the state unchanged. -/
theorem publisher_close_one_shot {T : Type} (p : Publisher T)
    (hfirst : (closePub p).1 = .ok) :
    ∀ (m : AsyncMessage T) (writeFails : Bool),
      (sendAsync (closePub p).2 m).1 = .closedErr ∧
      (sendAsync (closePub p).2 m).2 = (closePub p).2 ∧
      sendSync (closePub p).2 writeFails = (.closedErr, false) ∧
      closePub (closePub p).2 = (.closedErr, (closePub p).2) := by
  intro m writeFails
  have hopen : p.closed = false := by
    by_contra h
    have h2 : p.closed = true := by
      cases hc : p.closed
      · exact absurd hc h
      · rfl
    rw [closePub, if_pos h2] at hfirst
    cases hfirst
  have hclosed : (closePub p).2.closed = true := by
    rw [closePub, if_neg (by simp [hopen])]
  refine ⟨?_, ?_, ?_, ?_⟩
  · rw [sendAsync, if_pos hclosed]
  · rw [sendAsync, if_pos hclosed]
  · rw [sendSync, if_pos hclosed]
  · rw [closePub, if_pos hclosed]

/-- Witness for `publisher_close_one_shot` on a fresh publisher of naturals
and a concrete queued message. -/
theorem publisher_close_one_shot_witness :
    (sendAsync (closePub (NewPublisher Nat)).2 ⟨0, 7, true⟩).1 = .closedErr ∧
    (sendAsync (closePub (NewPublisher Nat)).2 ⟨0, 7, true⟩).2 =
      (closePub (NewPublisher Nat)).2 ∧
    sendSync (closePub (NewPublisher Nat)).2 false = (.closedErr, false) ∧
    closePub (closePub (NewPublisher Nat)).2 =
      (.closedErr, (closePub (NewPublisher Nat)).2) :=
  publisher_close_one_shot (NewPublisher Nat) (by decide) ⟨0, 7, true⟩ false

end Pub

namespace Generator

/-- Generation modes of `internal/generator/mode.go`. -/
inductive GenMode where
  | regular
  | pickLoad
  | night
deriving DecidableEq, Repr

/-- `defaultMode Mode = RegularMode`. -/
def defaultMode : GenMode := .regular

/-- `defaultDurationMax = 600` (`internal/generator/generator.go`). -/
def defaultDurationMax : Nat := 600

/-- `defaultBounceRate = 0.1`, an exact binary-independent constant modelled
as a rational. -/
def defaultBounceRate : ℚ := 1 / 10

/-- `defaultInvalidRate = 0.05`. -/
def defaultInvalidRate : ℚ := 5 / 100

/-- `bounceMax = 5_000`. -/
def bounceMax : Nat := 5000

/-- `EventGenerator` state: tunables plus the two channels, modelled by
their closed flags (`stopCh`, `eventCh`). -/
structure EventGenerator where
  durationMax : Nat
  bounceRate : ℚ
  invalidRate : ℚ
  mode : GenMode
  stopChClosed : Bool
  eventChClosed : Bool
deriving DecidableEq, Repr

/-- `NewEventGenerator()`: all defaults, both channels open. -/
def NewEventGenerator : EventGenerator :=
  { durationMax := defaultDurationMax
    bounceRate := defaultBounceRate
    invalidRate := defaultInvalidRate
    mode := defaultMode
    stopChClosed := false
    eventChClosed := false }

/-- The `duration := mrand.Intn(g.durationMax) + 1` draw of
`EventGenerator.event`; the random source is an oracle `r` reduced into
`Intn`'s range `[0, durationMax)`. -/
def eventViewDuration (g : EventGenerator) (r : Nat) : Nat :=
  r % g.durationMax + 1

/-- C8 counterexample: a freshly constructed generator does not carry
`duration_max = 30 000` and `bounce_rate = 0.3`; the actual defaults are 600
and 0.1. -/
theorem generator_defaults_ce :
    ¬ (NewEventGenerator.durationMax = 30000 ∧
       NewEventGenerator.bounceRate = 3 / 10) := by
  intro h
  have := h.1
  simp [NewEventGenerator, defaultDurationMax] at this

/-- C8 (amended): before any setter is called a generator has
`duration_max = 600` and `bounce_rate = 0.1`, so every valid event's view
duration lies in `[1, 600]`. -/
theorem generator_defaults :
    NewEventGenerator.durationMax = 600 ∧
    NewEventGenerator.bounceRate = 1 / 10 ∧
    ∀ r, 1 ≤ eventViewDuration NewEventGenerator r ∧
      eventViewDuration NewEventGenerator r ≤ 600 := by
  refine ⟨rfl, rfl, ?_⟩
  intro r
  have h : r % NewEventGenerator.durationMax < 600 := by
    have : (0 : Nat) < 600 := by omega
    simpa [NewEventGenerator, defaultDurationMax] using
      Nat.mod_lt r (show 0 < NewEventGenerator.durationMax from this)
  rw [eventViewDuration]
  omega

/-- `EventGenerator.Close`: `close(g.stopCh)` with no guard.  Closing an
already-closed Go channel panics, modelled as `none`. -/
def closeGenerator (g : EventGenerator) : Option EventGenerator :=
  if g.stopChClosed then none
  else some { g with stopChClosed := true }

/-- The `stopCh` arm of the `select` in `EventGenerator.Events`: once
`stopCh` is closed the goroutine closes `eventCh` and returns, terminating
the event sequence.  The Bool reports loop termination. -/
def eventsLoopStopArm (g : EventGenerator) : EventGenerator × Bool :=
  if g.stopChClosed then ({ g with eventChClosed := true }, true)
  else (g, false)

/-- C10: `EventGenerator.Close` is not idempotent: from any state with
`stopCh` open, the first `Close` closes `stopCh` (after which the events
goroutine closes `eventCh` and terminates), and a second `Close` on the
resulting generator panics (close of closed channel, modelled `none`). -/
theorem generator_close_not_idempotent (g : EventGenerator)
    (hopen : g.stopChClosed = false) :
    ∃ g1, closeGenerator g = some g1 ∧ g1.stopChClosed = true ∧
      (eventsLoopStopArm g1).2 = true ∧
      (eventsLoopStopArm g1).1.eventChClosed = true ∧
      closeGenerator g1 = none := by
  refine ⟨{ g with stopChClosed := true }, ?_, rfl, ?_, ?_, ?_⟩
  · rw [closeGenerator, if_neg (by simp [hopen])]
  · rw [eventsLoopStopArm]; simp
  · rw [eventsLoopStopArm]; simp
  · rw [closeGenerator, if_pos rfl]

/-- Witness for `generator_close_not_idempotent` on a fresh generator. -/
theorem generator_close_not_idempotent_witness :
    ∃ g1, closeGenerator NewEventGenerator = some g1 ∧
      g1.stopChClosed = true ∧
      (eventsLoopStopArm g1).2 = true ∧
      (eventsLoopStopArm g1).1.eventChClosed = true ∧
      closeGenerator g1 = none :=
  generator_close_not_idempotent NewEventGenerator rfl

end Generator

namespace Event

/-- A UTF-8 continuation byte (`0x80–0xBF`). -/
def isCont (b : Nat) : Bool := decide (128 ≤ b ∧ b ≤ 191)

/-- Valid lead/second byte combinations of a three-byte UTF-8 sequence
(excludes overlong forms for `0xE0` and surrogates for `0xED`). -/
def threeByteOK (b c d : Nat) : Bool :=
  (decide ((b = 224 ∧ 160 ≤ c ∧ c ≤ 191) ∨
           (225 ≤ b ∧ b ≤ 236 ∧ 128 ≤ c ∧ c ≤ 191) ∨
           (b = 237 ∧ 128 ≤ c ∧ c ≤ 159) ∨
           (238 ≤ b ∧ b ≤ 239 ∧ 128 ≤ c ∧ c ≤ 191))) && isCont d

/-- Valid lead/second byte combinations of a four-byte UTF-8 sequence
(excludes overlong forms for `0xF0` and code points above `U+10FFFF` for
`0xF4`). -/
def fourByteOK (b c d e : Nat) : Bool :=
  (decide ((b = 240 ∧ 144 ≤ c ∧ c ≤ 191) ∨
           (241 ≤ b ∧ b ≤ 243 ∧ 128 ≤ c ∧ c ≤ 191) ∨
           (b = 244 ∧ 128 ≤ c ∧ c ≤ 143))) && isCont d && isCont e

/-- The UTF-8 encoding of U+FFFD REPLACEMENT CHARACTER. -/
def repChar : List Nat := [239, 191, 189]

/-- Length (1–4) of the valid UTF-8 sequence at the head of the byte string,
or 0 when the head byte starts no valid sequence — the `size` of
`utf8.DecodeRuneInString` (0 standing for the error result, where Go's size
is 1). -/
def utf8SeqLen : List Nat → Nat
  | [] => 0
  | b :: rest =>
    if b < 128 then 1
    else
      match rest with
      | [] => 0
      | c :: rest2 =>
        if 194 ≤ b ∧ b ≤ 223 ∧ isCont c then 2
        else
          match rest2 with
          | [] => 0
          | d :: rest3 =>
            if threeByteOK b c d then 3
            else
              match rest3 with
              | [] => 0
              | e :: _ => if fourByteOK b c d e then 4 else 0

/-- Go's `encoding/json` string handling: scan the byte string with
`utf8.DecodeRuneInString`; a valid rune is copied verbatim, an invalid byte
is replaced by U+FFFD and the scan advances one byte.  Recursion is fuelled
to stay structural; one unit of fuel per consumed head byte suffices (the
wrapper supplies the string length). -/
def utf8SanitizeF : Nat → List Nat → List Nat
  | 0, l => l
  | _ + 1, [] => []
  | fuel + 1, b :: rest =>
    if utf8SeqLen (b :: rest) = 0 then
      repChar ++ utf8SanitizeF fuel rest
    else
      (b :: rest).take (utf8SeqLen (b :: rest)) ++
        utf8SanitizeF fuel ((b :: rest).drop (utf8SeqLen (b :: rest)))

/-- Sanitize a whole byte string. -/
def utf8Sanitize (l : List Nat) : List Nat := utf8SanitizeF l.length l

/-- Validity of a byte string as UTF-8, classified by `utf8SeqLen`. -/
def validUtf8F : Nat → List Nat → Bool
  | 0, l => l.isEmpty
  | _ + 1, [] => true
  | fuel + 1, b :: rest =>
    if utf8SeqLen (b :: rest) = 0 then false
    else validUtf8F fuel ((b :: rest).drop (utf8SeqLen (b :: rest)))

/-- Whether a byte string is valid UTF-8 (no decode errors anywhere). -/
def validUtf8 (l : List Nat) : Bool := validUtf8F l.length l

/-- On valid UTF-8 the sanitizer is the identity, for any fuel. -/
lemma utf8SanitizeF_of_valid :
    ∀ fuel l, validUtf8F fuel l = true → utf8SanitizeF fuel l = l := by
  intro fuel
  induction fuel with
  | zero => intro l _; rfl
  | succ fuel ih =>
    intro l hv
    cases l with
    | nil => rfl
    | cons b rest =>
      rw [validUtf8F] at hv
      rw [utf8SanitizeF]
      by_cases hn : utf8SeqLen (b :: rest) = 0
      · rw [if_pos hn] at hv
        cases hv
      · rw [if_neg hn] at hv
        rw [if_neg hn, ih _ hv, List.take_append_drop]

/-- On valid UTF-8 the sanitizer is the identity. -/
lemma utf8Sanitize_of_valid (l : List Nat) (hv : validUtf8 l = true) :
    utf8Sanitize l = l :=
  utf8SanitizeF_of_valid l.length l hv

/-- Big-endian decimal digits of `n`, zero-padded to width `w`. -/
def digitsPad : Nat → Nat → List Nat
  | 0, _ => []
  | w + 1, n => digitsPad w (n / 10) ++ [n % 10]

/-- Fold a digit list back into a number. -/
def parseDigits (l : List Nat) : Nat :=
  l.foldl (fun a d => a * 10 + d) 0

lemma parseDigits_append_one (xs : List Nat) (d : Nat) :
    parseDigits (xs ++ [d]) = parseDigits xs * 10 + d := by
  rw [parseDigits, parseDigits, List.foldl_append]
  rfl

lemma parseDigits_digitsPad :
    ∀ w n, n < 10 ^ w → parseDigits (digitsPad w n) = n := by
  intro w
  induction w with
  | zero =>
    intro n hn
    have : n = 0 := by simpa using hn
    simp [this, digitsPad, parseDigits]
  | succ w ih =>
    intro n hn
    rw [digitsPad, parseDigits_append_one, ih (n / 10) ?_]
    · omega
    · have h10 : (10 : Nat) ^ (w + 1) = 10 * 10 ^ w := by ring
      rw [h10] at hn
      exact Nat.div_lt_of_lt_mul hn

lemma digitsPad_length : ∀ w n, (digitsPad w n).length = w := by
  intro w
  induction w with
  | zero => intro n; rfl
  | succ w ih => intro n; simp [digitsPad, ih]

lemma digitsPad_lt_ten : ∀ w n, ∀ d ∈ digitsPad w n, d < 10 := by
  intro w
  induction w with
  | zero => intro n d hd; simp [digitsPad] at hd
  | succ w ih =>
    intro n d hd
    rw [digitsPad] at hd
    rcases List.mem_append.mp hd with h | h
    · exact ih (n / 10) d h
    · have : d = n % 10 := by simpa using h
      subst this
      exact Nat.mod_lt _ (by omega)

/-- ASCII rendering of the padded decimal. -/
def encNatPad (w n : Nat) : List Nat :=
  (digitsPad w n).map (· + 48)

/-- Parse an ASCII digit string; `none` on any non-digit byte. -/
def decDigits (l : List Nat) : Option Nat :=
  if l.all (fun b => decide (48 ≤ b ∧ b ≤ 57)) then
    some (parseDigits (l.map (· - 48)))
  else none

lemma encNatPad_length (w n : Nat) : (encNatPad w n).length = w := by
  rw [encNatPad, List.length_map, digitsPad_length]

lemma decDigits_encNatPad (w n : Nat) (hn : n < 10 ^ w) :
    decDigits (encNatPad w n) = some n := by
  rw [decDigits, encNatPad, if_pos ?_]
  · congr 1
    rw [List.map_map]
    have hmap : (digitsPad w n).map ((· - 48) ∘ (· + 48)) =
        (digitsPad w n).map id := by
      apply List.map_congr_left
      intro a _
      simp
    rw [hmap, List.map_id]
    exact parseDigits_digitsPad w n hn
  · rw [List.all_eq_true]
    intro b hb
    rw [List.mem_map] at hb
    obtain ⟨d, hd, rfl⟩ := hb
    have := digitsPad_lt_ten w n d hd
    simp
    omega

/-- The wall-clock instant held by a Go `time.Time`: seconds since the Unix
epoch and the nanosecond part (Go keeps `0 ≤ nsec < 10⁹`). -/
structure GoTime where
  sec : Int
  nsec : Nat
deriving DecidableEq, Repr

/-- Unix seconds of `0000-01-01T00:00:00Z`: `time.Time.MarshalJSON` rejects
years below 0. -/
def minMarshalSec : Int := -62167219200

/-- Unix seconds of `10000-01-01T00:00:00Z`: `MarshalJSON` rejects years
of 10000 and above ("year outside of range [0,9999]"). -/
def maxMarshalSec : Int := 253402300800

/-- The year range accepted by `time.Time.MarshalJSON`, together with the
nanosecond normalization Go maintains. -/
def timeInRange (t : GoTime) : Prop :=
  minMarshalSec ≤ t.sec ∧ t.sec < maxMarshalSec ∧ t.nsec < 1000000000

instance (t : GoTime) : Decidable (timeInRange t) := by
  rw [timeInRange]; infer_instance

/-- Stand-in for Go's RFC3339Nano timestamp text: the epoch offset (a
12-digit decimal) followed by `.` and the 9-digit nanosecond field.  Like
RFC3339 with nanosecond precision it is injective on the accepted range, so
the round-trip behaviour is the same; the calendar arithmetic itself is Go
library code outside this repository. -/
def timeMarshal (t : GoTime) : Option (List Nat) :=
  if timeInRange t then
    some (encNatPad 12 (t.sec - minMarshalSec).toNat ++ [46] ++
      encNatPad 9 t.nsec)
  else none

/-- Inverse of `timeMarshal`'s rendering. -/
def timeParse (l : List Nat) : Option GoTime :=
  if l.length = 22 ∧ l.get? 12 = some 46 then
    match decDigits (l.take 12), decDigits (l.drop 13) with
    | some s, some n =>
      if s < (maxMarshalSec - minMarshalSec).toNat ∧ n < 1000000000 then
        some ⟨minMarshalSec + s, n⟩
      else none
    | _, _ => none
  else none

set_option maxHeartbeats 1000000 in
lemma timeParse_timeMarshal (t : GoTime) (ht : timeInRange t) :
    (timeMarshal t).bind timeParse = some t := by
  obtain ⟨h1, h2, h3⟩ := ht
  have hsec : (t.sec - minMarshalSec).toNat < 10 ^ 12 := by
    rw [minMarshalSec] at h1 ⊢
    rw [maxMarshalSec] at h2
    omega
  have hsec2 : (t.sec - minMarshalSec).toNat <
      (maxMarshalSec - minMarshalSec).toNat := by
    rw [minMarshalSec] at h1 ⊢
    rw [maxMarshalSec] at h2 ⊢
    omega
  have hns : t.nsec < 10 ^ 9 := by omega
  rw [timeMarshal, if_pos ⟨h1, h2, h3⟩, Option.some_bind]
  have hlen12 : (encNatPad 12 (t.sec - minMarshalSec).toNat).length = 12 :=
    encNatPad_length _ _
  have hlen9 : (encNatPad 9 t.nsec).length = 9 := encNatPad_length _ _
  have hlen : (encNatPad 12 (t.sec - minMarshalSec).toNat ++ [46] ++
      encNatPad 9 t.nsec).length = 22 := by
    simp [hlen12, hlen9]
  have hget : (encNatPad 12 (t.sec - minMarshalSec).toNat ++ [46] ++
      encNatPad 9 t.nsec).get? 12 = some 46 := by
    rw [List.append_assoc, List.get?_append_right (by omega)]
    rw [hlen12]
    rfl
  rw [timeParse, if_pos ⟨hlen, hget⟩]
  have hassoc : encNatPad 12 (t.sec - minMarshalSec).toNat ++ [46] ++
      encNatPad 9 t.nsec =
      encNatPad 12 (t.sec - minMarshalSec).toNat ++
        (46 :: encNatPad 9 t.nsec) := by
    rw [List.append_assoc]
    rfl
  have htake : (encNatPad 12 (t.sec - minMarshalSec).toNat ++ [46] ++
      encNatPad 9 t.nsec).take 12 =
      encNatPad 12 (t.sec - minMarshalSec).toNat := by
    rw [hassoc, List.take_left' hlen12]
  have hdrop : (encNatPad 12 (t.sec - minMarshalSec).toNat ++ [46] ++
      encNatPad 9 t.nsec).drop 13 = encNatPad 9 t.nsec := by
    have h13 : (encNatPad 12 (t.sec - minMarshalSec).toNat ++ [46]).length
        = 13 := by
      simp [hlen12]
    rw [List.drop_left' h13]
  rw [htake, hdrop, decDigits_encNatPad 12 _ hsec, decDigits_encNatPad 9 _ hns]
  show (if (t.sec - minMarshalSec).toNat < (maxMarshalSec - minMarshalSec).toNat
      ∧ t.nsec < 1000000000 then
      some (GoTime.mk (minMarshalSec + ((t.sec - minMarshalSec).toNat : Int))
        t.nsec) else none) = some t
  rw [if_pos ⟨hsec2, h3⟩]
  have hback : minMarshalSec + ((t.sec - minMarshalSec).toNat : Int) = t.sec := by
    have hnn : (0 : Int) ≤ t.sec - minMarshalSec := by omega
    rw [Int.toNat_of_nonneg hnn]
    omega
  rw [hback]

/-- The fragment of JSON that `PageViewEvent`'s encoding uses: strings (byte
lists after Go's UTF-8 coercion), signed integers, booleans, and one flat
object. -/
inductive Json where
  | str : List Nat → Json
  | int : Int → Json
  | jbool : Bool → Json
  | obj : List (String × Json) → Json

/-- Field lookup in a JSON object (first match, as `encoding/json` emits no
duplicate keys). -/
def jLookup : List (String × Json) → String → Option Json
  | [], _ => none
  | (k, v) :: rest, key => if k = key then some v else jLookup rest key

/-- Expect a JSON string. -/
def asStr : Option Json → Option (List Nat)
  | some (Json.str s) => some s
  | _ => none

/-- Expect a JSON integer. -/
def asInt : Option Json → Option Int
  | some (Json.int i) => some i
  | _ => none

/-- Expect a JSON boolean. -/
def asBool : Option Json → Option Bool
  | some (Json.jbool b) => some b
  | _ => none

/-- `PageViewEvent` (`internal/event`): Go strings are byte lists, the
signed `view_duration_ms` is an `Int`, the timestamp a `GoTime`. -/
structure PageViewEvent where
  pageID : List Nat
  userID : List Nat
  viewDuration : Int
  timestamp : GoTime
  userAgent : List Nat
  ipAddress : List Nat
  region : List Nat
  isBounce : Bool
deriving DecidableEq, Repr

/-- An `omitempty` string field: dropped when empty, sanitized otherwise. -/
def optField (key : String) (s : List Nat) : List (String × Json) :=
  if s = [] then [] else [(key, Json.str (utf8Sanitize s))]

/-- `PageViewEvent.Bytes` = `json.Marshal` on the tagged struct, modelled to
the JSON-value level: string fields pass through Go's UTF-8 coercion,
`omitempty` drops empty `user_agent` / `ip_address` / `region`, and the
timestamp is rendered by `time.Time.MarshalJSON` (failing outside years
0–9999, which makes the whole marshal fail). -/
def marshalPageView (e : PageViewEvent) : Option Json :=
  match timeMarshal e.timestamp with
  | none => none
  | some ts =>
    some (Json.obj (
      [("page_id", Json.str (utf8Sanitize e.pageID)),
       ("user_id", Json.str (utf8Sanitize e.userID)),
       ("view_duration_ms", Json.int e.viewDuration),
       ("timestamp", Json.str ts)]
      ++ optField "user_agent" e.userAgent
      ++ optField "ip_address" e.ipAddress
      ++ optField "region" e.region
      ++ [("is_bounce", Json.jbool e.isBounce)]))

/-- `json.Unmarshal` into `PageViewEvent`: read each tagged field back,
leaving an absent `omitempty` string empty. -/
def unmarshalPageView : Json → Option PageViewEvent
  | Json.obj kvs => do
    let pg ← asStr (jLookup kvs "page_id")
    let us ← asStr (jLookup kvs "user_id")
    let vd ← asInt (jLookup kvs "view_duration_ms")
    let tsStr ← asStr (jLookup kvs "timestamp")
    let ts ← timeParse tsStr
    let ua := (asStr (jLookup kvs "user_agent")).getD []
    let ip := (asStr (jLookup kvs "ip_address")).getD []
    let rg := (asStr (jLookup kvs "region")).getD []
    let ib ← asBool (jLookup kvs "is_bounce")
    some ⟨pg, us, vd, ts, ua, ip, rg, ib⟩
  | _ => none

set_option maxHeartbeats 1000000 in
/-- C7 (amended): `Bytes()` succeeds for every event whose timestamp year is
in 0–9999, and decoding the encoding reproduces the event field-for-field
whenever all five string fields are valid UTF-8. -/
theorem pageView_roundtrip (e : PageViewEvent)
    (hpg : validUtf8 e.pageID = true) (hus : validUtf8 e.userID = true)
    (hua : validUtf8 e.userAgent = true) (hip : validUtf8 e.ipAddress = true)
    (hrg : validUtf8 e.region = true) (hts : timeInRange e.timestamp) :
    (marshalPageView e).isSome = true ∧
    (marshalPageView e).bind unmarshalPageView = some e := by
  obtain ⟨pg, us, vd, t0, ua, ip, rg, ib⟩ := e
  simp only at hpg hus hua hip hrg hts
  have hpg2 := utf8Sanitize_of_valid _ hpg
  have hus2 := utf8Sanitize_of_valid _ hus
  have hua2 := utf8Sanitize_of_valid _ hua
  have hip2 := utf8Sanitize_of_valid _ hip
  have hrg2 := utf8Sanitize_of_valid _ hrg
  obtain ⟨ts, hts2⟩ : ∃ ts, timeMarshal t0 = some ts :=
    ⟨_, by rw [timeMarshal, if_pos hts]⟩
  have htp : timeParse ts = some t0 := by
    have h := timeParse_timeMarshal t0 hts
    rw [hts2, Option.some_bind] at h
    exact h
  constructor
  · simp [marshalPageView, hts2]
  · by_cases hU : ua = ([] : List Nat) <;>
      by_cases hI : ip = ([] : List Nat) <;>
      by_cases hR : rg = ([] : List Nat) <;>
      simp [marshalPageView, hts2, unmarshalPageView, optField, jLookup,
        asStr, asInt, asBool, hU, hI, hR, hpg2, hus2, hua2, hip2, hrg2, htp]

/-- An event as produced by `getInvalidEvent`'s `invalidJSONDefect` branch:
`user_agent` holds the raw bytes `{0xFF, 0xFE, 0xFD}` (concrete values for
the other fields). -/
def defectEvent : PageViewEvent :=
  { pageID := [97]
    userID := [98]
    viewDuration := 120
    timestamp := ⟨0, 0⟩
    userAgent := [255, 254, 253]
    ipAddress := [49, 46, 50, 46, 51, 46, 52]
    region := [69, 85]
    isBounce := false }

/-- C7 counterexample: for the generator's invalid-JSON defect event the
encoding succeeds, but decoding it does not give back the event — Go's JSON
encoder replaces the invalid UTF-8 bytes of `user_agent` with U+FFFD. -/
theorem pageView_roundtrip_defect_ce :
    (marshalPageView defectEvent).isSome = true ∧
    (marshalPageView defectEvent).bind unmarshalPageView ≠ some defectEvent := by
  constructor
  · decide
  · decide

/-- A concrete well-formed event: ASCII strings, in-range timestamp. -/
def sampleEvent : PageViewEvent :=
  { pageID := [97, 98]
    userID := [99, 100]
    viewDuration := 1200
    timestamp := ⟨1700000000, 123456789⟩
    userAgent := [77, 111, 122]
    ipAddress := [49, 46, 50, 46, 51, 46, 52]
    region := [69, 85]
    isBounce := true }

/-- Witness for `pageView_roundtrip` at `sampleEvent`. -/
theorem pageView_roundtrip_witness :
    (marshalPageView sampleEvent).isSome = true ∧
    (marshalPageView sampleEvent).bind unmarshalPageView =
      some sampleEvent :=
  pageView_roundtrip sampleEvent (by decide) (by decide) (by decide)
    (by decide) (by decide) (by decide)

end Event

namespace Pipeline

/-- An envelope as exposed to the flush closure in `main`
(`producer_batcher.Message[event.PageViewEvent]`): submission context,
payload, and whether `Callback` is non-nil. -/
structure FlushMessage where
  ctxId : Nat
  data : Event.PageViewEvent
  hasCallback : Bool
deriving DecidableEq, Repr

/-- A `kafka.Message` record: key and value byte strings. -/
structure KafkaRecord where
  key : List Nat
  value : List Nat
deriving DecidableEq, Repr

/-- The zero `kafka.Message` left by `make([]kafka.Message, len(messages))`
at positions the loop skips. -/
def zeroRecord : KafkaRecord := ⟨[], []⟩

/-- The `kafkaMessages` slice built inside the flush closure of `main`:
allocated with the full batch length; position `i` is filled with
`{Key: userID, Value: Bytes()}` when serialization succeeds and left
zero-valued (`continue`) when it fails.  The serializer is the closure's
`message.Data.Bytes()`, kept as a parameter. -/
def buildKafkaMessages (ser : Event.PageViewEvent → Option (List Nat))
    (msgs : List FlushMessage) : List KafkaRecord :=
  msgs.map fun m =>
    match ser m.data with
    | none => zeroRecord
    | some b => ⟨m.data.userID, b⟩

/-- The `validMessages` slice of the same closure: exactly the envelopes
whose serialization succeeded; only these are acknowledged after the broker
write. -/
def ackMessages (ser : Event.PageViewEvent → Option (List Nat))
    (msgs : List FlushMessage) : List FlushMessage :=
  msgs.filter fun m => (ser m.data).isSome

/-- C9: the record vector handed to `WriteMessages` always has the full
batch length, with the zero record at every position whose envelope failed
to serialize; serialization failures are excluded from the acknowledgement
set only. -/
theorem flush_zero_records (ser : Event.PageViewEvent → Option (List Nat))
    (msgs : List FlushMessage) :
    (buildKafkaMessages ser msgs).length = msgs.length ∧
    (∀ (i : Nat) (m : FlushMessage), msgs[i]? = some m → ser m.data = none →
      (buildKafkaMessages ser msgs)[i]? = some zeroRecord) ∧
    (∀ m, m ∈ ackMessages ser msgs ↔
      m ∈ msgs ∧ (ser m.data).isSome = true) := by
  refine ⟨by simp [buildKafkaMessages], ?_, ?_⟩
  · intro i m hm hser
    rw [buildKafkaMessages, List.getElem?_map, hm]
    simp [hser]
  · intro m
    simp [ackMessages, List.mem_filter]

/-- A serializer that fails exactly on empty page ids, with two concrete
envelopes exercising both branches. -/
def serProbe (e : Event.PageViewEvent) : Option (List Nat) :=
  if e.pageID = [] then none else some e.pageID

/-- An envelope whose event serializes. -/
def okEnvelope : FlushMessage :=
  ⟨0, { pageID := [112], userID := [117], viewDuration := 5,
        timestamp := ⟨0, 0⟩, userAgent := [], ipAddress := [],
        region := [], isBounce := false }, true⟩

/-- An envelope whose event fails to serialize under `serProbe`. -/
def badEnvelope : FlushMessage :=
  ⟨1, { pageID := [], userID := [118], viewDuration := 6,
        timestamp := ⟨0, 0⟩, userAgent := [], ipAddress := [],
        region := [], isBounce := false }, true⟩

/-- Witness for `flush_zero_records` on `[badEnvelope, okEnvelope]`: full
length, zero record at index 0, and the acknowledgement set membership. -/
theorem flush_zero_records_witness :
    (buildKafkaMessages serProbe [badEnvelope, okEnvelope]).length = 2 ∧
    (buildKafkaMessages serProbe [badEnvelope, okEnvelope])[0]? =
      some zeroRecord ∧
    (okEnvelope ∈ ackMessages serProbe [badEnvelope, okEnvelope] ↔
      okEnvelope ∈ [badEnvelope, okEnvelope] ∧
        (serProbe okEnvelope.data).isSome = true) :=
  ⟨(flush_zero_records serProbe [badEnvelope, okEnvelope]).1,
   (flush_zero_records serProbe [badEnvelope, okEnvelope]).2.1 0 badEnvelope
     (by decide) (by decide),
   (flush_zero_records serProbe [badEnvelope, okEnvelope]).2.2 okEnvelope⟩

/-- One execution of the flush closure over batch `msgs` with broker-write
outcome `writeFails`, counting per-envelope callback invocations: an
envelope that fails serialization gets its callback invoked with the
serialization error; a serialized envelope gets it invoked with the write
error when `WriteMessages` fails, and with `nil` when it succeeds. -/
def closureRunCallbackCounts (ser : Event.PageViewEvent → Option (List Nat))
    (writeFails : Bool) (msgs : List FlushMessage) : List Nat :=
  msgs.map fun m =>
    match ser m.data with
    | none => if m.hasCallback then 1 else 0
    | some _ =>
      if writeFails then (if m.hasCallback then 1 else 0)
      else (if m.hasCallback then 1 else 0)

/-- Pointwise sum of per-envelope invocation counts. -/
def addCounts (a b : List Nat) : List Nat := List.zipWith (· + ·) a b

/-- `disp.Write(ctxMerged, closure)` over the flush closure: the dispatcher
retry loop of `writeWithBackoff`, accumulating each run's callback
invocations (the closure re-serializes and re-acknowledges on every
attempt). -/
def flushAttemptLoop (ser : Event.PageViewEvent → Option (List Nat))
    (msgs : List FlushMessage) (cancelled fails : Nat → Bool) :
    Nat → Nat → List Nat → Dispatcher.WriteResult × List Nat
  | 0, _, acc => (.backoffTimeout, acc)
  | n + 1, i, acc =>
    if cancelled i then
      (.ctxCancelled, acc)
    else
      let acc1 := addCounts acc (closureRunCallbackCounts ser (fails i) msgs)
      if fails i then flushAttemptLoop ser msgs cancelled fails n (i + 1) acc1
      else (.ok, acc1)

/-- Per-envelope callback invocation totals over a whole dispatcher run of
the flush closure. -/
def flushCallbackCounts (ser : Event.PageViewEvent → Option (List Nat))
    (msgs : List FlushMessage) (cancelled fails : Nat → Bool) :
    Dispatcher.WriteResult × List Nat :=
  flushAttemptLoop ser msgs cancelled fails Dispatcher.backoffAttemptCount 0
    (msgs.map fun _ => 0)

/-- C1 (falsified by the code): a single admitted envelope with a non-nil
callback, whose batch's broker write fails on the first dispatcher attempt
and succeeds on the second, has its callback invoked twice (once with the
write error, once with nil) even though the overall write succeeds — the
flush closure acknowledges inside the retried closure, so the pipeline does
not invoke the callback exactly once. -/
theorem pipeline_callback_invoked_twice :
    flushCallbackCounts (fun e => some e.userID) [okEnvelope]
      (fun _ => false) (fun i => decide (i = 0)) = (.ok, [2]) := by
  decide

end Pipeline
